import Mathlib

set_option autoImplicit false

/-! Formal model of the jsonl-resumable library: the byte-offset index engine
(`src/jsonl_resumable/index.py`), the progress loader
(`src/jsonl_resumable/progress.py`) and the checkpointing batch processor
(`src/jsonl_resumable/batch.py`).  Source files are modelled as lists of
bytes (naturals), timestamps and mtimes as naturals that are only ever
compared for equality.  Decoded text is modelled as the underlying byte
list. -/

namespace JsonlResumable

/-- Splitting of a byte sequence into lines, the way iteration over a Python
binary file handle splits it: every line keeps its trailing newline byte
(10), and a final chunk without a terminator is still one line. -/
def splitLines : List Nat → List (List Nat)
  | [] => []
  | b :: bs =>
    if b = 10 then [10] :: splitLines bs
    else
      match splitLines bs with
      | [] => [[b]]
      | l :: ls => (b :: l) :: ls

/-- Concatenating the lines of a byte sequence gives the sequence back. -/
theorem flatten_splitLines : ∀ bs : List Nat, (splitLines bs).flatten = bs := by
  intro bs
  induction bs with
  | nil => rfl
  | cons b bs ih =>
    by_cases hb : b = 10
    · subst hb; simp [splitLines, ih]
    · cases h : splitLines bs with
      | nil =>
        rw [h] at ih; simp at ih
        simp [splitLines, hb, h, ih.symm]
      | cons l ls =>
        rw [h] at ih
        simp [splitLines, hb, h]
        simpa using ih

/-- A nonempty newline-free byte sequence is a single line. -/
theorem splitLines_no_nl : ∀ bs : List Nat, bs ≠ [] → (10 : Nat) ∉ bs →
    splitLines bs = [bs] := by
  intro bs
  induction bs with
  | nil => intro h; exact absurd rfl h
  | cons b bs ih =>
    intro _ hmem
    have hb : b ≠ 10 := fun h => hmem (h ▸ List.mem_cons_self b bs)
    have hbs : (10 : Nat) ∉ bs := fun h => hmem (List.mem_cons_of_mem b h)
    cases h : splitLines bs with
    | nil =>
      have hbs0 : bs = [] := by
        have hfl := flatten_splitLines bs
        rw [h] at hfl
        simpa using hfl.symm
      subst hbs0
      simp [splitLines, hb]
    | cons l ls =>
      have hbs0 : bs ≠ [] := by
        intro hh
        subst hh
        simp [splitLines] at h
      have h1 := ih hbs0 hbs
      rw [h] at h1
      have hl : l = bs := (List.cons.injEq _ _ _ _ ▸ h1).1
      have hls : ls = [] := (List.cons.injEq _ _ _ _ ▸ h1).2
      subst hl; subst hls
      simp [splitLines, hb, h]

/-- Splitting a terminated line followed by more bytes peels off that line. -/
theorem splitLines_append_nl : ∀ s t : List Nat, (10 : Nat) ∉ s →
    splitLines (s ++ 10 :: t) = (s ++ [10]) :: splitLines t := by
  intro s
  induction s with
  | nil => intro t _; simp [splitLines]
  | cons a s ih =>
    intro t hmem
    have ha : a ≠ 10 := fun h => hmem (h ▸ List.mem_cons_self a s)
    have hs : (10 : Nat) ∉ s := fun h => hmem (List.mem_cons_of_mem a h)
    have hrec := ih t hs
    show splitLines (a :: (s ++ 10 :: t)) = ((a :: s) ++ [10]) :: splitLines t
    simp only [splitLines]
    rw [if_neg ha, hrec]
    rfl

/-- Valid line lists: every line before the last ends with a newline and has
no interior newline; the last line may also be nonempty and newline-free. -/
inductive ValidChunks : List (List Nat) → Prop
  | nil : ValidChunks []
  | lastU (l : List Nat) : l ≠ [] → (10 : Nat) ∉ l → ValidChunks [l]
  | cons (s : List Nat) (ls : List (List Nat)) :
      (10 : Nat) ∉ s → ValidChunks ls → ValidChunks ((s ++ [10]) :: ls)

/-- Line splitting always produces a valid line list. -/
theorem validChunks_splitLines : ∀ bs : List Nat, ValidChunks (splitLines bs) := by
  intro bs
  induction bs with
  | nil => exact ValidChunks.nil
  | cons b bs ih =>
    by_cases hb : b = 10
    · subst hb
      simpa [splitLines] using
        ValidChunks.cons [] (splitLines bs) (by simp) ih
    · cases h : splitLines bs with
      | nil =>
        simp only [splitLines, hb, if_false, h]
        exact ValidChunks.lastU [b] (by simp)
          (by intro hc; exact hb (List.mem_singleton.mp hc).symm)
      | cons l ls =>
        rw [h] at ih
        cases ih with
        | lastU l hne hmem =>
          simp only [splitLines, hb, if_false, h]
          refine ValidChunks.lastU (b :: l) (by simp) ?_
          intro hc
          rcases List.mem_cons.mp hc with hcb | hcl
          · exact hb hcb.symm
          · exact hmem hcl
        | cons s ls0 hmem hv =>
          simp only [splitLines, hb, if_false, h]
          have hshape : b :: (s ++ [10]) = (b :: s) ++ [10] := by simp
          rw [hshape]
          refine ValidChunks.cons (b :: s) ls ?_ hv
          intro hc
          rcases List.mem_cons.mp hc with hcb | hcs
          · exact hb hcb.symm
          · exact hmem hcs

/-- Splitting the concatenation of a valid line list gives the list back. -/
theorem splitLines_flatten : ∀ ls : List (List Nat), ValidChunks ls →
    splitLines ls.flatten = ls := by
  intro ls hv
  induction hv with
  | nil => rfl
  | lastU l hne hmem => simpa using splitLines_no_nl l hne hmem
  | cons s ls hmem _ ih =>
    have : ((s ++ [10]) :: ls).flatten = s ++ 10 :: ls.flatten := by simp
    rw [this, splitLines_append_nl s ls.flatten hmem, ih]

/-- Validity of a line list is preserved by dropping a prefix. -/
theorem validChunks_drop : ∀ (k : Nat) (ls : List (List Nat)), ValidChunks ls →
    ValidChunks (ls.drop k) := by
  intro k
  induction k with
  | zero => intro ls hv; simpa using hv
  | succ k ih =>
    intro ls hv
    cases hv with
    | nil => exact ValidChunks.nil
    | lastU l hne hmem => simp [List.drop]; exact ValidChunks.nil
    | cons s ls hmem hv => simpa using ih ls hv

/-- Total byte length of a list of lines. -/
def sumLen (ls : List (List Nat)) : Nat := (ls.map List.length).sum

/-- Dropping the bytes of the first `k` lines from the concatenation leaves
the concatenation of the remaining lines. -/
theorem drop_sumLen_flatten : ∀ (k : Nat) (ls : List (List Nat)),
    ls.flatten.drop (sumLen (ls.take k)) = (ls.drop k).flatten := by
  intro k
  induction k with
  | zero => intro ls; simp [sumLen]
  | succ k ih =>
    intro ls
    cases ls with
    | nil => simp [sumLen]
    | cons l ls =>
      have hs : sumLen ((l :: ls).take (k + 1)) = l.length + sumLen (ls.take k) := by
        simp [sumLen]
      rw [hs]
      simp only [List.flatten_cons, List.drop_succ_cons]
      rw [← List.drop_drop, List.drop_left]
      exact ih ls

/-! ## Index engine data model (`models.py`, `index.py`) -/

/-- Entry of the line table (`models.LineInfo`). -/
structure LineInfo where
  line_number : Nat
  offset : Nat
  length : Nat
deriving Repr, DecidableEq, Inhabited

/-- Metadata of an index (`models.IndexMeta`).  The mtime is an abstract
timestamp compared only for equality; `indexed_at` is the creation tick. -/
structure IndexMeta where
  file_path : String
  file_size : Nat
  file_mtime : Nat
  total_lines : Nat
  checkpoint_interval : Nat
  checkpoints : List (Nat × Nat)
  indexed_at : Nat
  version : String
deriving Repr, DecidableEq

/-- In-memory state of a `JsonlIndex`: metadata, line table, and the
constructor-supplied checkpoint interval. -/
structure IndexState where
  checkpoint_interval : Nat
  meta : IndexMeta
  lines : List LineInfo
deriving Repr, DecidableEq

/-- Scanning loop shared by `JsonlIndex._build_index` and `JsonlIndex.update`:
walks the given lines with a running line number and byte offset, producing
table entries plus sparse checkpoints every `interval` lines. -/
def indexLoop (interval : Nat) : Nat → Nat → List (List Nat) → List LineInfo × List (Nat × Nat)
  | _, _, [] => ([], [])
  | lineNo, offset, l :: ls =>
    let rest := indexLoop interval (lineNo + 1) (offset + l.length) ls
    (⟨lineNo, offset, l.length⟩ :: rest.1,
     if lineNo % interval = 0 then (lineNo, offset) :: rest.2 else rest.2)

/-- Building a fresh index (`JsonlIndex._build_index`): scan the whole file,
record every line with its offset and byte length, and set the metadata from
the stat values of the scanned file. -/
def build_index (path : String) (interval : Nat) (file : List Nat)
    (file_mtime now : Nat) : IndexState :=
  let scanned := indexLoop interval 0 0 (splitLines file)
  { checkpoint_interval := interval
    meta := { file_path := path
              file_size := file.length
              file_mtime := file_mtime
              total_lines := scanned.1.length
              checkpoint_interval := interval
              checkpoints := scanned.2
              indexed_at := now
              version := "1.0" }
    lines := scanned.1 }

/-- Errors of the read path: `IndexError` for an out-of-range line number and
the `LineCorruptedError` of `exceptions.py` for a short read.  The sync read
path of `index.py` never produces the second constructor. -/
inductive ReadError
  | outOfRange
  | lineCorrupted
deriving Repr, DecidableEq

/-- Lookup of a byte offset (`JsonlIndex.get_offset`): O(1) table access; an
out-of-range line number raises `IndexError`. -/
def get_offset (st : IndexState) (n : Nat) : Except ReadError (Nat × Nat) :=
  if h : n < st.lines.length then
    .ok ((st.lines.get ⟨n, h⟩).offset, (st.lines.get ⟨n, h⟩).length)
  else .error .outOfRange

/-- Stripping of trailing newline and carriage-return bytes, the effect of
the rstrip call applied to the decoded line. -/
def rstripNl (l : List Nat) : List Nat :=
  (l.reverse.dropWhile (fun b => b = 10 || b = 13)).reverse

/-- Reading one line through an open handle (`JsonlIndex.seek_line`): look up
offset and length, seek, read at most `length` bytes, decode and strip the
trailing newline bytes.  A short read, when the file holds fewer bytes than
the index promises, is returned as-is: the function has no corruption
check. -/
def seek_line (st : IndexState) (file : List Nat) (n : Nat) :
    Except ReadError (List Nat) :=
  (get_offset st n).map (fun ol => rstripNl ((file.drop ol.1).take ol.2))

/-- Reading one line, opening the file internally (`JsonlIndex.read_line`). -/
def read_line (st : IndexState) (file : List Nat) (n : Nat) :
    Except ReadError (List Nat) :=
  seek_line st file n

/-- Forward iteration (`JsonlIndex.iter_from`): a start at or past the end
yields nothing (negative starts are clamped to 0, so the start is a natural
here); otherwise the file is read sequentially from the byte offset of the
start line and split into newline-stripped lines. -/
def iter_from (st : IndexState) (file : List Nat) (start : Nat) : List (List Nat) :=
  if h : start < st.lines.length then
    (splitLines (file.drop (st.lines.get ⟨start, h⟩).offset)).map rstripNl
  else []

/-- Stat of the live file at update time: its bytes and mtime. -/
structure FsFile where
  bytes : List Nat
  mtime : Nat
deriving Repr, DecidableEq

/-- Error of `JsonlIndex.update`: the `ValueError` raised on a shrunk file,
the ShrunkFileError of the spec taxonomy. -/
inductive UpdateError
  | shrunkFile
deriving Repr, DecidableEq

/-- Incremental extension (`JsonlIndex.update`): a size match is a no-op
returning 0, a shrink raises, and otherwise only the byte range from the
indexed size to the end of the file is scanned and appended, with the
fingerprint set to the fresh stat values. -/
def update (st : IndexState) (fs : FsFile) : Except UpdateError (IndexState × Nat) :=
  let old_size := st.meta.file_size
  if fs.bytes.length = old_size then .ok (st, 0)
  else if fs.bytes.length < old_size then .error .shrunkFile
  else
    let scanned := indexLoop st.checkpoint_interval st.lines.length old_size
      (splitLines (fs.bytes.drop old_size))
    let lines2 := st.lines ++ scanned.1
    .ok ({ st with
            lines := lines2
            meta := { st.meta with
                       checkpoints := st.meta.checkpoints ++ scanned.2
                       file_size := fs.bytes.length
                       file_mtime := fs.mtime
                       total_lines := lines2.length } },
         scanned.1.length)

/-- Boolean success test for a fallible result. -/
def exceptIsOk {ε α : Type} : Except ε α → Bool
  | .ok _ => true
  | .error _ => false

/-- Value of a successful `update`, with the unchanged state as fallback. -/
def updateResult (st : IndexState) (fs : FsFile) : IndexState × Nat :=
  ((update st fs).toOption).getD (st, 0)

/-! ## Line-table lemmas -/

theorem indexLoop_fst_length (interval : Nat) : ∀ (ls : List (List Nat)) (n0 off0 : Nat),
    (indexLoop interval n0 off0 ls).1.length = ls.length := by
  intro ls
  induction ls with
  | nil => intro n0 off0; rfl
  | cons l ls ih => intro n0 off0; simp [indexLoop, ih]

theorem indexLoop_fst_getD (interval : Nat) : ∀ (ls : List (List Nat)) (n0 off0 k : Nat),
    k < ls.length →
    (indexLoop interval n0 off0 ls).1.getD k default =
      ⟨n0 + k, off0 + sumLen (ls.take k), (ls.getD k []).length⟩ := by
  intro ls
  induction ls with
  | nil => intro n0 off0 k h; simp at h
  | cons l ls ih =>
    intro n0 off0 k h
    cases k with
    | zero => simp [indexLoop, sumLen]
    | succ k =>
      have hk : k < ls.length := by simpa using h
      have := ih (n0 + 1) (off0 + l.length) k hk
      simp only [indexLoop, List.getD_cons_succ, this, sumLen, List.take_succ_cons,
        List.map_cons, List.sum_cons, LineInfo.mk.injEq]
      exact ⟨by omega, by omega, trivial⟩

theorem indexLoop_map_length (interval : Nat) : ∀ (ls : List (List Nat)) (n0 off0 : Nat),
    (indexLoop interval n0 off0 ls).1.map LineInfo.length = ls.map List.length := by
  intro ls
  induction ls with
  | nil => intro n0 off0; rfl
  | cons l ls ih => intro n0 off0; simp [indexLoop, ih]

/-- Contiguity invariant of a line table: entry `k` sits at the summed byte
length of all earlier entries and records its own position as its line
number. -/
def Contiguous (lines : List LineInfo) : Prop :=
  ∀ k, k < lines.length →
    (lines.getD k default).offset = ((lines.take k).map LineInfo.length).sum ∧
    (lines.getD k default).line_number = k

/-- Full table invariant: contiguity plus agreement of the metadata size and
line count with the table. -/
def TableInv (st : IndexState) : Prop :=
  Contiguous st.lines ∧
  st.meta.file_size = (st.lines.map LineInfo.length).sum ∧
  st.meta.total_lines = st.lines.length

/-- Appending a scan that starts at the summed length of a contiguous table
keeps the table contiguous. -/
theorem contiguous_append (l1 : List LineInfo) (interval : Nat) (ls : List (List Nat))
    (hc : Contiguous l1) :
    Contiguous (l1 ++ (indexLoop interval l1.length ((l1.map LineInfo.length).sum) ls).1) := by
  intro k hk
  set new := (indexLoop interval l1.length ((l1.map LineInfo.length).sum) ls).1 with hnew
  by_cases hlt : k < l1.length
  · rw [List.getD_append _ _ _ _ hlt, List.take_append_of_le_length (Nat.le_of_lt hlt)]
    exact hc k hlt
  · have hge : l1.length ≤ k := Nat.le_of_not_lt hlt
    have hlen : new.length = ls.length := indexLoop_fst_length interval ls _ _
    have hj : k - l1.length < ls.length := by
      rw [List.length_append, hlen] at hk
      omega
    have hgd : new.getD (k - l1.length) default =
        ⟨l1.length + (k - l1.length), (l1.map LineInfo.length).sum +
          sumLen (ls.take (k - l1.length)), (ls.getD (k - l1.length) []).length⟩ := by
      rw [hnew]
      exact indexLoop_fst_getD interval ls _ _ _ hj
    have hkeq : k = l1.length + (k - l1.length) := by omega
    have htake : (l1 ++ new).take k = l1 ++ new.take (k - l1.length) := by
      conv_lhs => rw [hkeq]
      rw [List.take_append]
    have hmap : (new.take (k - l1.length)).map LineInfo.length
        = (ls.take (k - l1.length)).map List.length := by
      rw [List.map_take, hnew, indexLoop_map_length, ← List.map_take]
    rw [List.getD_append_right _ _ _ _ hge, hgd]
    constructor
    · show (l1.map LineInfo.length).sum + sumLen (ls.take (k - l1.length)) = _
      rw [htake, List.map_append, List.sum_append, hmap]
      rfl
    · show l1.length + (k - l1.length) = k
      omega

/-- Total byte length of the indexed lines equals the scanned byte count. -/
theorem sumLen_splitLines (bs : List Nat) : sumLen (splitLines bs) = bs.length := by
  rw [sumLen, ← List.length_flatten, flatten_splitLines]

/-- A freshly built index satisfies the table invariant. -/
theorem build_index_tableInv (path : String) (interval : Nat) (file : List Nat)
    (file_mtime now : Nat) : TableInv (build_index path interval file file_mtime now) := by
  refine ⟨?_, ?_, rfl⟩
  · have := contiguous_append [] interval (splitLines file)
      (by intro k hk; simp at hk)
    simpa [build_index] using this
  · show file.length = _
    rw [show (build_index path interval file file_mtime now).lines
        = (indexLoop interval 0 0 (splitLines file)).1 from rfl,
      indexLoop_map_length]
    rw [show (splitLines file).map List.length = (splitLines file).map List.length from rfl]
    have := sumLen_splitLines file
    rw [sumLen] at this
    omega

/-- Incremental extension preserves the table invariant. -/
theorem update_tableInv (st : IndexState) (fs : FsFile) (st2 : IndexState) (n : Nat)
    (hinv : TableInv st) (h : update st fs = .ok (st2, n)) : TableInv st2 := by
  obtain ⟨hc, hsz, htot⟩ := hinv
  unfold update at h
  by_cases heq : fs.bytes.length = st.meta.file_size
  · simp only [heq, if_true] at h
    cases h
    exact ⟨hc, hsz, htot⟩
  · by_cases hlt : fs.bytes.length < st.meta.file_size
    · simp [heq, hlt] at h
    · simp only [heq, hlt, if_false] at h
      cases h
      refine ⟨?_, ?_, rfl⟩
      · have := contiguous_append st.lines st.checkpoint_interval
          (splitLines (fs.bytes.drop st.meta.file_size)) hc
        rw [← hsz] at this
        exact this
      · show fs.bytes.length = _
        rw [List.map_append, List.sum_append, indexLoop_map_length]
        have h1 : ((splitLines (fs.bytes.drop st.meta.file_size)).map List.length).sum
            = fs.bytes.length - st.meta.file_size := by
          have := sumLen_splitLines (fs.bytes.drop st.meta.file_size)
          rw [sumLen] at this
          simpa using this
        omega

/-! ## Progress data model (`models.py`) and job maps

For the checkpoint engine the progress file on disk is represented by what
the loader yields from it: `none` when nothing loads, `some m` for a loaded
job map.  Maps are association lists in insertion order, as a Python dict
keeps them. -/

/-- Lifecycle status of a job (`models.JobProgress.status`). -/
inductive JobStatus
  | in_progress
  | completed
deriving Repr, DecidableEq

/-- Cursor state of one batch job (`models.JobProgress`). -/
structure JobProgress where
  job_id : String
  position : Nat
  file_size : Nat
  file_mtime : Nat
  status : JobStatus
  created_at : Nat
  last_checkpoint_at : Nat
  completed_at : Option Nat
deriving Repr, DecidableEq

/-- Lookup of a job id in a job map. -/
def lookupJob (m : List (String × JobProgress)) (jid : String) : Option JobProgress :=
  match m with
  | [] => none
  | (k, v) :: rest => if k = jid then some v else lookupJob rest jid

/-- Insert-or-replace of one job, keeping the position of a replaced entry,
the way assignment into a Python dict behaves. -/
def insertJob (m : List (String × JobProgress)) (j : JobProgress) :
    List (String × JobProgress) :=
  match m with
  | [] => [(j.job_id, j)]
  | (k, v) :: rest => if k = j.job_id then (k, j) :: rest else (k, v) :: insertJob rest j

/-- Read-modify-write of one cursor (`progress.update_job_progress`): load
the whole map, or start empty when the progress file is absent or invalid,
replace one entry and save the whole map. -/
def update_job_progress (disk : Option (List (String × JobProgress))) (j : JobProgress) :
    List (String × JobProgress) :=
  insertJob (disk.getD []) j

/-! ## Checkpoint engine (`batch.py`) -/

/-- Errors of `BatchProcessor.__enter__`: `StaleCheckpointError` and
`InvalidCheckpointError` from `exceptions.py`. -/
inductive EnterError
  | stale
  | invalid
deriving Repr, DecidableEq

/-- In-memory state of an entered batch session: the `_position` cursor, the
loaded or created `_job`, and the `_exhausted` flag. -/
structure BatchState where
  position : Nat
  job : JobProgress
  exhausted : Bool
deriving Repr, DecidableEq

/-- Fresh cursor created on first entry of a job id. -/
def mkFreshJob (jid : String) (size mtime now : Nat) : JobProgress :=
  { job_id := jid, position := 0, file_size := size, file_mtime := mtime,
    status := .in_progress, created_at := now, last_checkpoint_at := now,
    completed_at := none }

/-- Session entry (`BatchProcessor.__enter__`): load the cursor of the job
id if one is stored; a fingerprint mismatch with the live stat raises
`StaleCheckpointError`, a stored position beyond `total_lines` raises
`InvalidCheckpointError`, and otherwise the stored position is adopted.
When nothing loads or the id is absent, a fresh cursor at position 0 with
status in progress is created and persisted immediately.  Returns the
session state and the post-entry progress file. -/
def enter (jid : String) (disk : Option (List (String × JobProgress)))
    (size mtime total now : Nat) :
    Except EnterError (BatchState × Option (List (String × JobProgress))) :=
  let fresh := mkFreshJob jid size mtime now
  let created : BatchState × Option (List (String × JobProgress)) :=
    ({ position := 0, job := fresh, exhausted := false },
     some (update_job_progress disk fresh))
  match disk with
  | none => .ok created
  | some jobs =>
    match lookupJob jobs jid with
    | none => .ok created
    | some job =>
      if job.file_size ≠ size ∨ job.file_mtime ≠ mtime then .error .stale
      else if job.position > total then .error .invalid
      else .ok ({ position := job.position, job := job, exhausted := false }, some jobs)

/-- Items produced by a full pass of `BatchProcessor.__iter__`: nothing when
the loaded cursor is already completed, otherwise the pairs of line number
and decoded record streamed by `iter_from` starting at the session position.
`decode` stands for the pluggable record decode step: the identity for
`as_json=False`, JSON parsing otherwise. -/
def sessionItems {α : Type} (decode : List Nat → α) (st : IndexState)
    (file : List Nat) (b : BatchState) : List (Nat × α) :=
  if b.job.status = .completed then []
  else (iter_from st file b.position).enum.map
    (fun p => (b.position + p.1, decode p.2))

/-- Cursor movement of the iterator when the caller pulls `k` items and then
stops: `_position` advances by one per produced item and the `_exhausted`
flag stays unset because the sequence was never drained past its end. -/
def consume (st : IndexState) (file : List Nat) (b : BatchState) (k : Nat) : BatchState :=
  { b with position := b.position + min k (sessionItems id st file b).length }

/-- Full drain of the iterator: every available item is pulled and the
`_exhausted` flag is set (also in the already-completed branch, which yields
nothing and sets the flag at once). -/
def drain (st : IndexState) (file : List Nat) (b : BatchState) : BatchState :=
  { b with position := b.position + (sessionItems id st file b).length, exhausted := true }

/-- Explicit checkpoint (`BatchProcessor.checkpoint`): copy the in-memory
position into the cursor, stamp `last_checkpoint_at` and persist the cursor
through a read-modify-write of the progress file. -/
def checkpoint (b : BatchState) (disk : Option (List (String × JobProgress)))
    (now : Nat) : BatchState × Option (List (String × JobProgress)) :=
  let job2 := { b.job with position := b.position, last_checkpoint_at := now }
  ({ b with job := job2 }, some (update_job_progress disk job2))

/-- Session exit (`BatchProcessor.__exit__`): only when no exception is in
flight and the iterator was drained to exhaustion is the cursor marked
completed, stamped and persisted; any other exit leaves the progress file
exactly as the last explicit checkpoint (or the entry) wrote it. -/
def exitSession (b : BatchState) (disk : Option (List (String × JobProgress)))
    (excRaised : Bool) (now : Nat) :
    BatchState × Option (List (String × JobProgress)) :=
  if excRaised = false ∧ b.exhausted = true then
    let job2 := { b.job with
                  status := JobStatus.completed
                  completed_at := some now
                  last_checkpoint_at := now }
    ({ b with job := job2 }, some (update_job_progress disk job2))
  else (b, disk)

/-! ## Random sampling (`JsonlIndex.sample`) -/

/-- One step of the pseudo-random generator backing the model of the Python
`random.Random` stream. -/
def rngStep (s : Nat) : Nat :=
  (6364136223846793005 * s + 1442695040888963407) % (2 ^ 64)

/-- Model of `random.Random(seed)`: a seeded instance is in a state that is a
function of the seed alone, an unseeded instance takes its state from
operating-system entropy. -/
def mkRandom (seed : Option Nat) (entropy : Nat) : Nat :=
  match seed with
  | some s => rngStep s
  | none => entropy

/-- Draw loop of the model of `Random.sample`: pick one remaining candidate
per step, consuming generator state. -/
def rngSampleAux : Nat → Nat → List Nat → List Nat
  | _, 0, _ => []
  | s, Nat.succ k, avail =>
    if avail.isEmpty then []
    else (avail.getD (s % avail.length) 0) ::
      rngSampleAux (rngStep s) k (avail.eraseIdx (s % avail.length))

/-- Model of `rng.sample(range(pop), k)`: `k` distinct members of
`range(pop)`, a function of the generator state.  The concrete stream is a
linear congruential stand-in for the library generator; the development
relies only on the draw being a function of the state. -/
def rngSample (state pop k : Nat) : List Nat :=
  rngSampleAux state k (List.range pop)

/-- Stable insertion of an index into an index list sorted by drawn line
number.  Strict comparison keeps equal keys in their original relative
order, as the stable Python sort does. -/
def insertIdx (key : Nat → Nat) (i : Nat) : List Nat → List Nat
  | [] => [i]
  | j :: js => if key j < key i then j :: insertIdx key i js else i :: j :: js

/-- Sorting of `range(n)` by drawn line number
(`sorted(range(n), key=lambda i: line_numbers[i])`). -/
def sortIdx (key : Nat → Nat) : List Nat → List Nat
  | [] => []
  | i :: is => insertIdx key i (sortIdx key is)

/-- Total variant of the seek-and-read used where the line number is known to
be in range: table lookup through `getD` instead of a range check. -/
def seek_line_getD (st : IndexState) (file : List Nat) (n : Nat) : List Nat :=
  rstripNl ((file.drop (st.lines.getD n default).offset).take
    (st.lines.getD n default).length)

/-- Scatter of the records read in ascending line order back into the
positions of the original draw (`result[original_idx] = record`); the
`none` cells model the Python placeholder list before assignment. -/
def scatter {α : Type} (n : Nat) (idxs : List Nat) (recs : List α) : List (Option α) :=
  (idxs.zip recs).foldl (fun acc p => acc.set p.1 (some p.2)) (List.replicate n none)

/-- Random sampling (`JsonlIndex.sample`): nothing for an empty index;
otherwise clamp `n`, draw `n` distinct line numbers from a local generator
built from `seed` (or from entropy when unseeded), read the drawn lines in
ascending line order for sequential disk access, and scatter the records
back into draw order before returning. -/
def sample {α : Type} (decode : List Nat → α) (st : IndexState) (file : List Nat)
    (n : Nat) (seed : Option Nat) (entropy : Nat) : List (Option α) :=
  if st.meta.total_lines = 0 then []
  else
    let rng := mkRandom seed entropy
    let n2 := min n st.meta.total_lines
    let line_numbers := rngSample rng st.meta.total_lines n2
    let sorted_indices := sortIdx (fun i => line_numbers.getD i 0) (List.range n2)
    let sorted_line_numbers := sorted_indices.map (fun i => line_numbers.getD i 0)
    let sorted_records := sorted_line_numbers.map
      (fun ln => decode (seek_line_getD st file ln))
    scatter n2 sorted_indices sorted_records

/-! ## Progress loader (`progress.load_progress`) under Python dynamic
semantics.  The parsed content of the progress file is `none` for a missing
or unparsable file and `some v` for a parsed JSON value `v`. -/

/-- JSON values as Python objects.  Numbers are collapsed to integers: the
loader never computes with them. -/
inductive JVal
  | jnull
  | jbool (b : Bool)
  | jnum (n : Int)
  | jstr (s : String)
  | jarr (xs : List JVal)
  | jobj (fields : List (String × JVal))
deriving Repr

/-- Exceptions reachable in the loader body. -/
inductive PyExc
  | attributeError
  | keyError
  | typeError
  | fileNotFound
  | jsonDecode
deriving Repr, DecidableEq

/-- Field lookup in a parsed JSON object. -/
def lookupField (fs : List (String × JVal)) (k : String) : Option JVal :=
  match fs with
  | [] => none
  | (k2, v) :: rest => if k2 = k then some v else lookupField rest k

/-- Method call `v.get(key, default)`: dict lookup, or an `AttributeError`
when the receiver is not a dict. -/
def pyGet (v : JVal) (k : String) (d : JVal) : Except PyExc JVal :=
  match v with
  | .jobj fs => .ok ((lookupField fs k).getD d)
  | _ => .error .attributeError

/-- Method call `v.items()`: the pairs of a dict, or an `AttributeError`
otherwise. -/
def pyItems (v : JVal) : Except PyExc (List (String × JVal)) :=
  match v with
  | .jobj fs => .ok fs
  | _ => .error .attributeError

/-- Subscript `v[key]` with a string key: `KeyError` when a dict misses the
key, `TypeError` when the receiver is not a dict. -/
def pySubscript (v : JVal) (k : String) : Except PyExc JVal :=
  match v with
  | .jobj fs =>
    match lookupField fs k with
    | some x => .ok x
    | none => .error .keyError
  | _ => .error .typeError

/-- Equality test of a parsed value against the format-version string. -/
def jvalIsStr (v : JVal) (s : String) : Bool :=
  match v with
  | .jstr s2 => s2 = s
  | _ => false

/-- Job record as the loader builds it: the `JobProgress` constructor call
with dynamically typed values taken from the parsed JSON. -/
structure LoadedJob where
  job_id : String
  position : JVal
  file_size : JVal
  file_mtime : JVal
  status : JVal
  created_at : JVal
  last_checkpoint_at : JVal
  completed_at : JVal
deriving Repr

/-- Loader loop over the serialized jobs, in source evaluation order: the six
subscripts, then the `.get` of the optional field. -/
def loadJobs : List (String × JVal) → Except PyExc (List (String × LoadedJob))
  | [] => .ok []
  | (jid, jd) :: rest => do
    let p ← pySubscript jd "position"
    let fsz ← pySubscript jd "file_size"
    let fmt ← pySubscript jd "file_mtime"
    let stt ← pySubscript jd "status"
    let cat ← pySubscript jd "created_at"
    let lca ← pySubscript jd "last_checkpoint_at"
    let coa ← pyGet jd "completed_at" .jnull
    let tail ← loadJobs rest
    return (jid, ⟨jid, p, fsz, fmt, stt, cat, lca, coa⟩) :: tail

/-- Loader body before the exception handler (`progress.load_progress`): a
missing or unparsable file raises out of the open or parse call; a version
mismatch returns `none`; otherwise the job map is rebuilt from the parsed
value under Python dynamic-attribute semantics. -/
def load_progress_body (content : Option JVal) :
    Except PyExc (Option (List (String × LoadedJob))) :=
  match content with
  | none => .error .fileNotFound
  | some data => do
    let fv ← pyGet data "format_version" .jnull
    if jvalIsStr fv "1.0" = false then return none
    else do
      let jobsVal ← pyGet data "jobs" (.jobj [])
      let pairs ← pyItems jobsVal
      let jobs ← loadJobs pairs
      return some jobs

/-- Model of `progress.load_progress` with its exception handler: decode
errors, key errors, type errors and a missing file degrade to `none`;
anything else propagates to the caller. -/
def load_progress (content : Option JVal) :
    Except PyExc (Option (List (String × LoadedJob))) :=
  match load_progress_body content with
  | .ok r => .ok r
  | .error .jsonDecode => .ok none
  | .error .keyError => .ok none
  | .error .typeError => .ok none
  | .error .fileNotFound => .ok none
  | .error .attributeError => .error .attributeError

/-! ## Helper lemmas for the claims -/

/-- Inserting a job makes it the one found under its id. -/
theorem lookupJob_insertJob (m : List (String × JobProgress)) (j : JobProgress) :
    lookupJob (insertJob m j) j.job_id = some j := by
  induction m with
  | nil => simp [insertJob, lookupJob]
  | cons kv rest ih =>
    obtain ⟨k, v⟩ := kv
    by_cases hk : k = j.job_id
    · simp [insertJob, hk, lookupJob]
    · simp [insertJob, hk, lookupJob, ih]

/-- The built line table has one entry per line of the file. -/
theorem build_index_lines_length (path : String) (interval : Nat) (file : List Nat)
    (mtime now : Nat) :
    (build_index path interval file mtime now).lines.length = (splitLines file).length :=
  indexLoop_fst_length interval (splitLines file) 0 0

/-- Iteration over a built index starting inside the table streams exactly
the lines of the file from the start position on. -/
theorem iter_from_build (path : String) (interval : Nat) (file : List Nat)
    (mtime now P : Nat) (h : P < (build_index path interval file mtime now).lines.length) :
    iter_from (build_index path interval file mtime now) file P =
      ((splitLines file).drop P).map rstripNl := by
  set st := build_index path interval file mtime now with hst
  have hP : P < (splitLines file).length := by
    rw [← build_index_lines_length path interval file mtime now]
    exact h
  have hoff : (st.lines.get ⟨P, h⟩).offset = sumLen ((splitLines file).take P) := by
    have hgd : st.lines.getD P default =
        ⟨0 + P, 0 + sumLen ((splitLines file).take P), ((splitLines file).getD P []).length⟩ := by
      rw [hst]
      exact indexLoop_fst_getD interval (splitLines file) 0 0 P hP
    have : st.lines.get ⟨P, h⟩ = st.lines.getD P default := by
      rw [List.getD_eq_getElem?_getD, List.getElem?_eq_getElem h]
      rfl
    rw [this, hgd]
    simp
  unfold iter_from
  rw [dif_pos h, hoff]
  have hdrop : file.drop (sumLen ((splitLines file).take P)) = ((splitLines file).drop P).flatten := by
    have h2 := drop_sumLen_flatten P (splitLines file)
    rw [flatten_splitLines] at h2
    exact h2
  rw [hdrop, splitLines_flatten _ (validChunks_drop P _ (validChunks_splitLines file))]

/-- Length of one full iteration pass over a built index. -/
theorem iter_from_build_length (path : String) (interval : Nat) (file : List Nat)
    (mtime now P : Nat) :
    (iter_from (build_index path interval file mtime now) file P).length =
      (build_index path interval file mtime now).lines.length - P := by
  by_cases h : P < (build_index path interval file mtime now).lines.length
  · rw [iter_from_build path interval file mtime now P h]
    rw [List.length_map, List.length_drop, build_index_lines_length]
  · unfold iter_from
    rw [dif_neg h]
    simp
    omega

/-- Item count of a session over a built index whose cursor is not
completed. -/
theorem sessionItems_length_build {α : Type} (decode : List Nat → α)
    (path : String) (interval : Nat) (file : List Nat) (mtime now : Nat)
    (b : BatchState) (hs : b.job.status ≠ .completed) :
    (sessionItems decode (build_index path interval file mtime now) file b).length =
      (build_index path interval file mtime now).lines.length - b.position := by
  unfold sessionItems
  rw [if_neg hs, List.length_map, List.enum_length]
  exact iter_from_build_length path interval file mtime now b.position

/-- First item of a session over a built index resuming at an in-range
position: the position paired with the decoded line at that position. -/
theorem sessionItems_head_build {α : Type} (decode : List Nat → α)
    (path : String) (interval : Nat) (file : List Nat) (mtime now : Nat)
    (b : BatchState) (hs : b.job.status ≠ .completed)
    (h : b.position < (build_index path interval file mtime now).lines.length) :
    (sessionItems decode (build_index path interval file mtime now) file b).head? =
      some (b.position, decode (rstripNl ((splitLines file).getD b.position []))) := by
  have hP : b.position < (splitLines file).length := by
    rw [← build_index_lines_length path interval file mtime now]
    exact h
  unfold sessionItems
  rw [if_neg hs, iter_from_build path interval file mtime now b.position h]
  rw [List.drop_eq_getElem_cons hP]
  simp [List.getD_eq_getElem?_getD, List.getElem?_eq_getElem hP]

/-- A list of fully terminated lines is a valid line list. -/
theorem validChunks_of_terminated : ∀ ls : List (List Nat),
    (∀ l ∈ ls, ∃ s, (10 : Nat) ∉ s ∧ l = s ++ [10]) → ValidChunks ls := by
  intro ls
  induction ls with
  | nil => intro _; exact ValidChunks.nil
  | cons l rest ih =>
    intro hmem
    obtain ⟨s, hs, hl⟩ := hmem l (List.mem_cons_self l rest)
    rw [hl]
    exact ValidChunks.cons s rest hs (ih (fun x hx => hmem x (List.mem_cons_of_mem l hx)))

/-- A failed subscript is a key error or a type error, never an attribute
error. -/
theorem pySubscript_error (v : JVal) (k : String) (e : PyExc)
    (h : pySubscript v k = .error e) : e = .keyError ∨ e = .typeError := by
  cases v with
  | jobj fs =>
    cases hl : lookupField fs k with
    | none => simp [pySubscript, hl] at h; exact Or.inl h.symm
    | some x => simp [pySubscript, hl] at h
  | jnull => simp [pySubscript] at h; exact Or.inr h.symm
  | jbool b => simp [pySubscript] at h; exact Or.inr h.symm
  | jnum n => simp [pySubscript] at h; exact Or.inr h.symm
  | jstr s => simp [pySubscript] at h; exact Or.inr h.symm
  | jarr xs => simp [pySubscript] at h; exact Or.inr h.symm

/-- A successful subscript means the receiver was a dict. -/
theorem pySubscript_ok_obj (v : JVal) (k : String) (x : JVal)
    (h : pySubscript v k = .ok x) : ∃ fs, v = JVal.jobj fs := by
  cases v with
  | jobj fs => exact ⟨fs, rfl⟩
  | jnull => simp [pySubscript] at h
  | jbool b => simp [pySubscript] at h
  | jnum n => simp [pySubscript] at h
  | jstr s => simp [pySubscript] at h
  | jarr xs => simp [pySubscript] at h

/-- The loader loop only fails with caught exception classes. -/
theorem loadJobs_error : ∀ (ps : List (String × JVal)) (e : PyExc),
    loadJobs ps = .error e → e = .keyError ∨ e = .typeError := by
  intro ps
  induction ps with
  | nil => intro e h; simp [loadJobs] at h
  | cons p rest ih =>
    intro e h
    obtain ⟨jid, jd⟩ := p
    simp only [loadJobs, bind, Except.bind] at h
    cases h1 : pySubscript jd "position" with
    | error e1 =>
      rw [h1] at h
      cases h
      exact pySubscript_error jd "position" _ h1
    | ok p1 =>
      obtain ⟨fs, hfs⟩ := pySubscript_ok_obj jd "position" p1 h1
      subst hfs
      rw [h1] at h
      cases h2 : pySubscript (JVal.jobj fs) "file_size" with
      | error e2 => rw [h2] at h; cases h; exact pySubscript_error _ "file_size" _ h2
      | ok p2 =>
        rw [h2] at h
        cases h3 : pySubscript (JVal.jobj fs) "file_mtime" with
        | error e3 => rw [h3] at h; cases h; exact pySubscript_error _ "file_mtime" _ h3
        | ok p3 =>
          rw [h3] at h
          cases h4 : pySubscript (JVal.jobj fs) "status" with
          | error e4 => rw [h4] at h; cases h; exact pySubscript_error _ "status" _ h4
          | ok p4 =>
            rw [h4] at h
            cases h5 : pySubscript (JVal.jobj fs) "created_at" with
            | error e5 => rw [h5] at h; cases h; exact pySubscript_error _ "created_at" _ h5
            | ok p5 =>
              rw [h5] at h
              cases h6 : pySubscript (JVal.jobj fs) "last_checkpoint_at" with
              | error e6 =>
                rw [h6] at h; cases h
                exact pySubscript_error _ "last_checkpoint_at" _ h6
              | ok p6 =>
                rw [h6] at h
                rw [show pyGet (JVal.jobj fs) "completed_at" JVal.jnull
                    = .ok ((lookupField fs "completed_at").getD .jnull) from rfl] at h
                cases h7 : loadJobs rest with
                | error e7 => rw [h7] at h; cases h; exact ih _ h7
                | ok r => rw [h7] at h; cases h

/-- Contents whose top level is absent or a JSON object whose jobs member,
when present, is itself an object. -/
def ShapeOk : Option JVal → Prop
  | none => True
  | some (JVal.jobj fs) =>
    match lookupField fs "jobs" with
    | none => True
    | some (JVal.jobj _) => True
    | some _ => False
  | some _ => False

/-! ## Claims -/

/-- C1, counterexample: on the index built from the six-byte file `ab\ncd\n`
truncated to four bytes, line 1 has recorded offset 3 and length 3, fewer
than 3 bytes remain, and `seek_line` returns the short remainder
successfully instead of raising the corruption error the claim promises. -/
theorem c1_counterexample :
    get_offset (build_index "f" 100 [97, 98, 10, 99, 100, 10] 0 0) 1 = .ok (3, 3) ∧
    ([97, 98, 10, 99] : List Nat).length < 3 + 3 ∧
    seek_line (build_index "f" 100 [97, 98, 10, 99, 100, 10] 0 0) [97, 98, 10, 99] 1
      = .ok [99] ∧
    seek_line (build_index "f" 100 [97, 98, 10, 99, 100, 10] 0 0) [97, 98, 10, 99] 1
      ≠ .error ReadError.lineCorrupted := by
  refine ⟨rfl, by decide, rfl, ?_⟩
  intro h
  rw [show seek_line (build_index "f" 100 [97, 98, 10, 99, 100, 10] 0 0)
    [97, 98, 10, 99] 1 = .ok [99] from rfl] at h
  exact Except.noConfusion h

/-- C1, amended: for every in-range line number, `seek_line` succeeds and
returns the newline-stripped bytes actually available at the recorded
offset, even when fewer than `length` bytes remain in the file; no
corruption error is raised on the synchronous read path. -/
theorem c1_short_read_returns_ok (st : IndexState) (file : List Nat)
    (n o len : Nat) (h : get_offset st n = .ok (o, len)) :
    seek_line st file n = .ok (rstripNl ((file.drop o).take len)) := by
  unfold seek_line
  rw [h]
  rfl

/-- C1 witness: the amended reading at the concrete truncated file. -/
theorem c1_short_read_returns_ok_witness :
    seek_line (build_index "f" 100 [97, 98, 10, 99, 100, 10] 0 0) [97, 98, 10, 99] 1
      = .ok (rstripNl ((([97, 98, 10, 99] : List Nat).drop 3).take 3)) :=
  c1_short_read_returns_ok (build_index "f" 100 [97, 98, 10, 99, 100, 10] 0 0)
    [97, 98, 10, 99] 1 3 3 rfl

/-- C3: session entry splits exactly as claimed: a stored cursor with a
fingerprint differing from the live stat fails stale; a stored cursor with a
matching fingerprint but a position beyond total lines fails invalid; an
absent cursor is created at position 0 with status in progress and persisted
immediately. -/
theorem c3_enter_case_split (jid : String) (disk : Option (List (String × JobProgress)))
    (size mtime total now : Nat) :
    (∀ jobs job, disk = some jobs → lookupJob jobs jid = some job →
      (job.file_size ≠ size ∨ job.file_mtime ≠ mtime) →
      enter jid disk size mtime total now = .error .stale) ∧
    (∀ jobs job, disk = some jobs → lookupJob jobs jid = some job →
      job.file_size = size → job.file_mtime = mtime → job.position > total →
      enter jid disk size mtime total now = .error .invalid) ∧
    ((disk = none ∨ ∃ jobs, disk = some jobs ∧ lookupJob jobs jid = none) →
      enter jid disk size mtime total now =
        .ok ({ position := 0, job := mkFreshJob jid size mtime now, exhausted := false },
          some (update_job_progress disk (mkFreshJob jid size mtime now))) ∧
      (mkFreshJob jid size mtime now).position = 0 ∧
      (mkFreshJob jid size mtime now).status = JobStatus.in_progress) := by
  refine ⟨?_, ?_, ?_⟩
  · intro jobs job hdisk hlook hne
    subst hdisk
    simp [enter, hlook, hne]
  · intro jobs job hdisk hlook h1 h2 h3
    subst hdisk
    have hne : ¬(job.file_size ≠ size ∨ job.file_mtime ≠ mtime) := by
      push_neg
      exact ⟨h1, h2⟩
    simp [enter, hlook, hne, h1, h2, h3]
  · intro hfresh
    refine ⟨?_, rfl, rfl⟩
    rcases hfresh with hnone | ⟨jobs, hdisk, hlook⟩
    · subst hnone; rfl
    · subst hdisk; simp [enter, hlook]

/-- C3 witness: the three branches at concrete cursors. -/
theorem c3_enter_case_split_witness :
    enter "j" (some [("j", ⟨"j", 0, 5, 7, .in_progress, 0, 0, none⟩)]) 6 7 10 1
      = .error .stale ∧
    enter "j" (some [("j", ⟨"j", 11, 5, 7, .in_progress, 0, 0, none⟩)]) 5 7 10 1
      = .error .invalid ∧
    enter "j" none 5 7 10 2 =
      .ok ({ position := 0, job := mkFreshJob "j" 5 7 2, exhausted := false },
        some (update_job_progress none (mkFreshJob "j" 5 7 2))) := by
  refine ⟨?_, ?_, ?_⟩
  · exact (c3_enter_case_split "j" _ 6 7 10 1).1 _ _ rfl rfl (Or.inl (by decide))
  · exact (c3_enter_case_split "j" _ 5 7 10 1).2.1 _ _ rfl rfl rfl rfl (by decide)
  · exact ((c3_enter_case_split "j" none 5 7 10 2).2.2 (Or.inl rfl)).1

/-- C5: incremental extension fails on a shrunk file, is a no-op returning 0
on an unchanged size, and otherwise succeeds returning the count of newly
indexed lines while setting the metadata fingerprint to the current stat. -/
theorem c5_update_cases (st : IndexState) (fs : FsFile) :
    (fs.bytes.length < st.meta.file_size → update st fs = .error .shrunkFile) ∧
    (fs.bytes.length = st.meta.file_size → update st fs = .ok (st, 0)) ∧
    (st.meta.file_size < fs.bytes.length →
      exceptIsOk (update st fs) = true ∧
      (updateResult st fs).2 = (splitLines (fs.bytes.drop st.meta.file_size)).length ∧
      (updateResult st fs).1.lines.length = st.lines.length + (updateResult st fs).2 ∧
      (updateResult st fs).1.meta.file_size = fs.bytes.length ∧
      (updateResult st fs).1.meta.file_mtime = fs.mtime) := by
  refine ⟨?_, ?_, ?_⟩
  · intro h
    have hne : fs.bytes.length ≠ st.meta.file_size := Nat.ne_of_lt h
    simp [update, hne, h]
  · intro h
    simp [update, h]
  · intro h
    have hne : fs.bytes.length ≠ st.meta.file_size := by omega
    have hnl : ¬fs.bytes.length < st.meta.file_size := by omega
    refine ⟨?_, ?_, ?_, ?_, ?_⟩ <;>
      simp [update, updateResult, exceptIsOk, Except.toOption, hne, hnl,
        indexLoop_fst_length]

/-- C5 witness: the three branches at a concrete one-line index. -/
theorem c5_update_cases_witness :
    update (build_index "f" 100 [97, 10] 0 0) ⟨[], 1⟩ = .error .shrunkFile ∧
    update (build_index "f" 100 [97, 10] 0 0) ⟨[97, 10], 1⟩
      = .ok (build_index "f" 100 [97, 10] 0 0, 0) ∧
    exceptIsOk (update (build_index "f" 100 [97, 10] 0 0) ⟨[97, 10, 98, 10], 1⟩) = true ∧
    (updateResult (build_index "f" 100 [97, 10] 0 0) ⟨[97, 10, 98, 10], 1⟩).1.meta.file_mtime
      = 1 := by
  have h := c5_update_cases (build_index "f" 100 [97, 10] 0 0) ⟨[97, 10, 98, 10], 1⟩
  refine ⟨?_, ?_, (h.2.2 (by decide)).1, (h.2.2 (by decide)).2.2.2.2⟩
  · exact (c5_update_cases (build_index "f" 100 [97, 10] 0 0) ⟨[], 1⟩).1 (by decide)
  · exact (c5_update_cases (build_index "f" 100 [97, 10] 0 0) ⟨[97, 10], 1⟩).2.1 (by decide)

/-- Explicit form of a growing update. -/
theorem update_grow_eq (st : IndexState) (fs : FsFile)
    (hgt : st.meta.file_size < fs.bytes.length) :
    update st fs = .ok
      ({ st with
          lines := st.lines ++ (indexLoop st.checkpoint_interval st.lines.length
            st.meta.file_size (splitLines (fs.bytes.drop st.meta.file_size))).1
          meta := { st.meta with
                     checkpoints := st.meta.checkpoints ++ (indexLoop st.checkpoint_interval
                       st.lines.length st.meta.file_size
                       (splitLines (fs.bytes.drop st.meta.file_size))).2
                     file_size := fs.bytes.length
                     file_mtime := fs.mtime
                     total_lines := st.lines.length
                       + (splitLines (fs.bytes.drop st.meta.file_size)).length } },
       (splitLines (fs.bytes.drop st.meta.file_size)).length) := by
  have h1 : ¬fs.bytes.length = st.meta.file_size := by omega
  have h2 : ¬fs.bytes.length < st.meta.file_size := by omega
  simp [update, h1, h2, indexLoop_fst_length, List.length_append]

/-- C6: after appending N complete lines to an indexed file, extension
succeeds returning N, total lines grows by exactly N, every previously
indexed entry keeps its offset and length, and the appended entries continue
the numbering from the old total. -/
theorem c6_extend_appends (st : IndexState) (file : List Nat) (fsMtime : Nat)
    (ls : List (List Nat))
    (hsz : st.meta.file_size = file.length)
    (htot : st.meta.total_lines = st.lines.length)
    (hterm : ∀ l ∈ ls, ∃ s, (10 : Nat) ∉ s ∧ l = s ++ [10]) :
    exceptIsOk (update st ⟨file ++ ls.flatten, fsMtime⟩) = true ∧
    (updateResult st ⟨file ++ ls.flatten, fsMtime⟩).2 = ls.length ∧
    (updateResult st ⟨file ++ ls.flatten, fsMtime⟩).1.meta.total_lines
      = st.meta.total_lines + ls.length ∧
    (updateResult st ⟨file ++ ls.flatten, fsMtime⟩).1.lines.take st.lines.length
      = st.lines ∧
    (updateResult st ⟨file ++ ls.flatten, fsMtime⟩).1.lines.length
      = st.lines.length + ls.length ∧
    ∀ i, i < ls.length →
      ((updateResult st ⟨file ++ ls.flatten, fsMtime⟩).1.lines.getD
        (st.lines.length + i) default).line_number = st.meta.total_lines + i := by
  rcases hempty : ls with _ | ⟨l0, rest⟩
  · have hb : file ++ ([] : List (List Nat)).flatten = file := by simp
    rw [hb]
    have hA : update st ⟨file, fsMtime⟩ = .ok (st, 0) := by
      simp [update, hsz]
    have hres : updateResult st ⟨file, fsMtime⟩ = (st, 0) := by
      simp [updateResult, hA, Except.toOption]
    refine ⟨by rw [hA]; rfl, by rw [hres]; rfl, by rw [hres]; simp,
      by rw [hres]; simp, by rw [hres]; simp, ?_⟩
    intro i hi
    simp at hi
  · subst hempty
    obtain ⟨s0, hs0, hl0⟩ := hterm l0 (List.mem_cons_self l0 rest)
    have hflpos : 0 < (l0 :: rest).flatten.length := by
      rw [hl0]
      simp
    have hgt : st.meta.file_size < (file ++ (l0 :: rest).flatten).length := by
      rw [hsz, List.length_append]
      omega
    have hdrop : (file ++ (l0 :: rest).flatten).drop st.meta.file_size
        = (l0 :: rest).flatten := by
      rw [hsz]
      exact List.drop_left file _
    have hsplit : splitLines ((file ++ (l0 :: rest).flatten).drop st.meta.file_size)
        = l0 :: rest := by
      rw [hdrop]
      exact splitLines_flatten _ (validChunks_of_terminated _ hterm)
    have hA := update_grow_eq st ⟨file ++ (l0 :: rest).flatten, fsMtime⟩ hgt
    rw [show (⟨file ++ (l0 :: rest).flatten, fsMtime⟩ : FsFile).bytes
        = file ++ (l0 :: rest).flatten from rfl] at hA
    rw [hsplit] at hA
    have hres := congrArg Except.toOption hA
    rw [show (Except.ok (ε := UpdateError) _).toOption = some _ from rfl] at hres
    have hres2 : updateResult st ⟨file ++ (l0 :: rest).flatten, fsMtime⟩ =
        ({ st with
            lines := st.lines ++ (indexLoop st.checkpoint_interval st.lines.length
              st.meta.file_size (l0 :: rest)).1
            meta := { st.meta with
                       checkpoints := st.meta.checkpoints ++ (indexLoop st.checkpoint_interval
                         st.lines.length st.meta.file_size (l0 :: rest)).2
                       file_size := (file ++ (l0 :: rest).flatten).length
                       file_mtime := fsMtime
                       total_lines := st.lines.length + (l0 :: rest).length } },
         (l0 :: rest).length) := by
      unfold updateResult
      rw [hA]
      rfl
    refine ⟨by rw [hA]; rfl, by rw [hres2], by rw [hres2]; simp [htot], ?_, ?_, ?_⟩
    · rw [hres2]
      exact List.take_left st.lines _
    · rw [hres2]
      simp [indexLoop_fst_length]
    · intro i hi
      rw [hres2]
      have hle : st.lines.length ≤ st.lines.length + i := Nat.le_add_right _ _
      rw [show ({ st with
            lines := st.lines ++ (indexLoop st.checkpoint_interval st.lines.length
              st.meta.file_size (l0 :: rest)).1
            meta := { st.meta with
                       checkpoints := st.meta.checkpoints ++ (indexLoop st.checkpoint_interval
                         st.lines.length st.meta.file_size (l0 :: rest)).2
                       file_size := (file ++ (l0 :: rest).flatten).length
                       file_mtime := fsMtime
                       total_lines := st.lines.length + (l0 :: rest).length } } : IndexState).lines
          = st.lines ++ (indexLoop st.checkpoint_interval st.lines.length
              st.meta.file_size (l0 :: rest)).1 from rfl]
      rw [List.getD_append_right _ _ _ _ hle]
      rw [Nat.add_sub_cancel_left]
      rw [indexLoop_fst_getD st.checkpoint_interval (l0 :: rest) _ _ _ hi]
      rw [htot]

/-- C6 witness: two terminated lines appended to a one-line file. -/
theorem c6_extend_appends_witness :
    exceptIsOk (update (build_index "f" 100 [97, 10] 0 0)
      ⟨[97, 10] ++ ([[98, 10], [99, 10]] : List (List Nat)).flatten, 1⟩) = true ∧
    (updateResult (build_index "f" 100 [97, 10] 0 0)
      ⟨[97, 10] ++ ([[98, 10], [99, 10]] : List (List Nat)).flatten, 1⟩).2 = 2 ∧
    ((updateResult (build_index "f" 100 [97, 10] 0 0)
      ⟨[97, 10] ++ ([[98, 10], [99, 10]] : List (List Nat)).flatten, 1⟩).1.lines.getD
        (1 + 1) default).line_number = 1 + 1 := by
  have h := c6_extend_appends (build_index "f" 100 [97, 10] 0 0) [97, 10] 1
    [[98, 10], [99, 10]] rfl rfl ?_
  · refine ⟨h.1, h.2.1, ?_⟩
    have h6 := h.2.2.2.2.2 1 (by decide)
    rw [show (build_index "f" 100 [97, 10] 0 0).lines.length = 1 from rfl] at h6
    rw [show (build_index "f" 100 [97, 10] 0 0).meta.total_lines = 1 from rfl] at h6
    exact h6
  · intro l hl
    rcases List.mem_cons.mp hl with h1 | h1
    · exact ⟨[98], by decide, h1⟩
    · rcases List.mem_cons.mp h1 with h2 | h2
      · exact ⟨[99], by decide, h2⟩
      · exact absurd h2 (List.not_mem_nil l)

/-- C7: a freshly built table is contiguous, with each entry at the summed
length of all earlier entries and numbered by its position, and the
invariant is preserved by the mutating operations: rebuild is a fresh build
and incremental extension keeps it. -/
theorem c7_contiguity :
    (∀ (path : String) (interval : Nat) (file : List Nat) (mtime now : Nat),
      Contiguous (build_index path interval file mtime now).lines ∧
      TableInv (build_index path interval file mtime now)) ∧
    (∀ (st : IndexState) (fs : FsFile) (st2 : IndexState) (n : Nat),
      TableInv st → update st fs = .ok (st2, n) →
      Contiguous st2.lines ∧ TableInv st2) := by
  constructor
  · intro path interval file mtime now
    have h := build_index_tableInv path interval file mtime now
    exact ⟨h.1, h⟩
  · intro st fs st2 n hinv h
    have h2 := update_tableInv st fs st2 n hinv h
    exact ⟨h2.1, h2⟩

/-- C7 witness: the invariant at a concrete build and a concrete extension. -/
theorem c7_contiguity_witness :
    TableInv (build_index "f" 100 [97, 10] 0 0) ∧
    Contiguous (updateResult (build_index "f" 100 [97, 10] 0 0) ⟨[97, 10, 98, 10], 1⟩).1.lines := by
  have h1 := (c7_contiguity.1 "f" 100 [97, 10] 0 0).2
  have h2 := c7_contiguity.2 (build_index "f" 100 [97, 10] 0 0) ⟨[97, 10, 98, 10], 1⟩
    (updateResult (build_index "f" 100 [97, 10] 0 0) ⟨[97, 10, 98, 10], 1⟩).1
    (updateResult (build_index "f" 100 [97, 10] 0 0) ⟨[97, 10, 98, 10], 1⟩).2
    h1 rfl
  exact ⟨h1, h2.1⟩

/-- C9: with a fixed seed the whole sampling pipeline, from the draw through
the ascending-order read and the scatter back into draw order, is a function
of the seed and the indexed file alone: the operating-system entropy that
seeds an unseeded generator has no influence, so two calls return identical
lists, element for element. -/
theorem c9_sample_seeded_deterministic {α : Type} (decode : List Nat → α)
    (st : IndexState) (file : List Nat) (n S e1 e2 : Nat) :
    sample decode st file n (some S) e1 = sample decode st file n (some S) e2 := rfl

/-- C4: a session drained to natural exhaustion that exits without an
exception persists its cursor with status completed and completed_at set,
even when checkpoint was never called; an exit after an early break or under
an exception persists nothing; and a session over an already completed
cursor yields zero items while its exit re-persists the cursor with the
position unchanged. -/
theorem c4_exit_semantics {α : Type} (decode : List Nat → α) (st : IndexState)
    (file : List Nat) (b : BatchState)
    (disk : Option (List (String × JobProgress))) (exc : Bool) (now : Nat) :
    (b.exhausted = true →
      exitSession b disk false now =
        ({ b with job := { b.job with status := JobStatus.completed, completed_at := some now, last_checkpoint_at := now } },
         some (update_job_progress disk { b.job with status := JobStatus.completed, completed_at := some now, last_checkpoint_at := now })) ∧
      ({ b.job with status := JobStatus.completed, completed_at := some now, last_checkpoint_at := now } : JobProgress).status = JobStatus.completed ∧
      ({ b.job with status := JobStatus.completed, completed_at := some now, last_checkpoint_at := now } : JobProgress).completed_at = some now) ∧
    (b.exhausted = false ∨ exc = true → exitSession b disk exc now = (b, disk)) ∧
    (b.job.status = JobStatus.completed →
      sessionItems decode st file b = [] ∧
      (drain st file b).position = b.position ∧
      (exitSession (drain st file b) disk false now).2 =
        some (update_job_progress disk { b.job with status := JobStatus.completed, completed_at := some now, last_checkpoint_at := now }) ∧
      ({ b.job with status := JobStatus.completed, completed_at := some now, last_checkpoint_at := now } : JobProgress).position = b.job.position) := by
  refine ⟨?_, ?_, ?_⟩
  · intro hx
    refine ⟨?_, rfl, rfl⟩
    simp [exitSession, hx]
  · intro hcase
    rcases hcase with hx | hx
    · simp [exitSession, hx]
    · simp [exitSession, hx]
  · intro hc
    have hitems : sessionItems decode st file b = [] := by
      simp [sessionItems, hc]
    have hitems2 : sessionItems id st file b = [] := by
      simp [sessionItems, hc]
    have hdrain : drain st file b = { b with exhausted := true } := by
      simp [drain, hitems2]
    refine ⟨hitems, by rw [hdrain], ?_, rfl⟩
    rw [hdrain]
    simp [exitSession]

/-- C4 witness: the three behaviours at concrete sessions. -/
theorem c4_exit_semantics_witness :
    (exitSession { position := 5, job := ⟨"j", 2, 9, 0, .in_progress, 1, 1, none⟩, exhausted := true } none false 8).2 =
      some (update_job_progress none
        ⟨"j", 2, 9, 0, .completed, 1, 8, some 8⟩) ∧
    exitSession { position := 5, job := ⟨"j", 2, 9, 0, .in_progress, 1, 1, none⟩, exhausted := false } none false 8 =
      ({ position := 5, job := ⟨"j", 2, 9, 0, .in_progress, 1, 1, none⟩, exhausted := false }, none) ∧
    sessionItems id (build_index "f" 100 [97, 10] 0 0) [97, 10]
      { position := 1, job := ⟨"j", 1, 2, 0, .completed, 1, 1, some 1⟩, exhausted := false } = [] := by
  have h1 := (c4_exit_semantics id (build_index "f" 100 [97, 10] 0 0) [97, 10]
    { position := 5, job := ⟨"j", 2, 9, 0, .in_progress, 1, 1, none⟩, exhausted := true }
    none false 8).1 rfl
  have h2 := (c4_exit_semantics id (build_index "f" 100 [97, 10] 0 0) [97, 10]
    { position := 5, job := ⟨"j", 2, 9, 0, .in_progress, 1, 1, none⟩, exhausted := false }
    none false 8).2.1 (Or.inl rfl)
  have h3 := (c4_exit_semantics id (build_index "f" 100 [97, 10] 0 0) [97, 10]
    { position := 1, job := ⟨"j", 1, 2, 0, .completed, 1, 1, some 1⟩, exhausted := false }
    none false 8).2.2 rfl
  exact ⟨by rw [h1.1], h2, h3.1⟩

/-- C10, counterexample: re-entering the completed job over the unchanged
8-line file, iterating (zero items) and exiting cleanly at tick 9 rewrites
completed_at and last_checkpoint_at to 9 in the re-persisted cursor, but
created_at (3) is also left unchanged even though it differs from 9, so
position and status are not the only fields a no-op session leaves
unchanged. -/
theorem c10_counterexample :
    enter "job" (some [("job", ⟨"job", 7, 16, 0, .completed, 3, 4, some 5⟩)]) 16 0
        (build_index "f" 100 ((List.replicate 8 [65, 10]).flatten) 0 0).meta.total_lines 8
      = .ok ({ position := 7, job := ⟨"job", 7, 16, 0, .completed, 3, 4, some 5⟩, exhausted := false },
        some [("job", ⟨"job", 7, 16, 0, .completed, 3, 4, some 5⟩)]) ∧
    (exitSession (drain (build_index "f" 100 ((List.replicate 8 [65, 10]).flatten) 0 0)
        ((List.replicate 8 [65, 10]).flatten)
        { position := 7, job := ⟨"job", 7, 16, 0, .completed, 3, 4, some 5⟩, exhausted := false })
      (some [("job", ⟨"job", 7, 16, 0, .completed, 3, 4, some 5⟩)]) false 9).2
      = some [("job", ⟨"job", 7, 16, 0, .completed, 3, 9, some 9⟩)] ∧
    (3 : Nat) ≠ 9 := by
  refine ⟨rfl, rfl, by decide⟩

/-- C10, amended: a clean exit of a re-entered completed session that
iterated zero items re-persists the cursor with completed_at and
last_checkpoint_at overwritten by the exit time, while position, status and
created_at (as well as the job id and the fingerprint) are unchanged. -/
theorem c10_completed_reexit (st : IndexState) (file : List Nat) (j : JobProgress)
    (pos : Nat) (disk : Option (List (String × JobProgress))) (now : Nat)
    (hc : j.status = JobStatus.completed) :
    sessionItems id st file { position := pos, job := j, exhausted := false } = [] ∧
    exitSession (drain st file { position := pos, job := j, exhausted := false })
        disk false now
      = ({ position := pos,
           job := { j with completed_at := some now, last_checkpoint_at := now }, exhausted := true },
         some (update_job_progress disk
           { j with completed_at := some now, last_checkpoint_at := now })) ∧
    ({ j with completed_at := some now, last_checkpoint_at := now } : JobProgress).position
      = j.position ∧
    ({ j with completed_at := some now, last_checkpoint_at := now } : JobProgress).status
      = j.status ∧
    ({ j with completed_at := some now, last_checkpoint_at := now } : JobProgress).created_at
      = j.created_at := by
  have hitems : sessionItems id st file { position := pos, job := j, exhausted := false }
      = [] := by
    simp [sessionItems, hc]
  refine ⟨hitems, ?_, rfl, rfl, rfl⟩
  have hdrain : drain st file { position := pos, job := j, exhausted := false } =
      { position := pos, job := j, exhausted := true } := by
    simp [drain, hitems]
  rw [hdrain]
  have hjob : ({ j with status := JobStatus.completed, completed_at := some now, last_checkpoint_at := now } : JobProgress)
      = { j with completed_at := some now, last_checkpoint_at := now } := by
    rcases j with ⟨a, b2, c, d, e, f, g, h⟩
    simp only at hc
    rw [show e = JobStatus.completed from hc]
  simp only [exitSession]
  rw [hjob]
  rw [if_pos ⟨trivial, trivial⟩]

/-- C10 witness: the amended exit at a concrete completed cursor. -/
theorem c10_completed_reexit_witness :
    sessionItems id (build_index "f" 100 [97, 10] 0 0) [97, 10]
      { position := 1, job := ⟨"j", 1, 2, 0, .completed, 3, 4, some 5⟩, exhausted := false } = [] ∧
    (exitSession (drain (build_index "f" 100 [97, 10] 0 0) [97, 10]
        { position := 1, job := ⟨"j", 1, 2, 0, .completed, 3, 4, some 5⟩, exhausted := false }) none false 9).2
      = some (update_job_progress none ⟨"j", 1, 2, 0, .completed, 3, 9, some 9⟩) := by
  have h := c10_completed_reexit (build_index "f" 100 [97, 10] 0 0) [97, 10]
    ⟨"j", 1, 2, 0, .completed, 3, 4, some 5⟩ 1 none 9 rfl
  exact ⟨h.1, by rw [h.2.1]⟩

/-- Entry over a stored cursor with a matching fingerprint and an in-bounds
position adopts the stored position. -/
theorem enter_found (jid : String) (jobs : List (String × JobProgress)) (job : JobProgress)
    (size mtime total now : Nat) (hlook : lookupJob jobs jid = some job)
    (hfs : job.file_size = size) (hfm : job.file_mtime = mtime)
    (hpos : ¬job.position > total) :
    enter jid (some jobs) size mtime total now =
      .ok ({ position := job.position, job := job, exhausted := false }, some jobs) := by
  have hne : ¬(job.file_size ≠ size ∨ job.file_mtime ≠ mtime) := by
    push_neg
    exact ⟨hfs, hfm⟩
  simp [enter, hlook, hne, hpos]

/-- C2: over an unchanged file, a job id with no stored cursor enters at
position 0; consuming k items moves the in-memory position to k; an explicit
checkpoint persists exactly that position; and a later session for the same
job id, the process having stopped without completing, enters at position k
and its iteration yields the pair of k and the record of line k first. -/
theorem c2_resume {α : Type} (decode : List Nat → α) (path jid : String)
    (interval : Nat) (file : List Nat) (mtime now0 nowE nowC nowR k : Nat)
    (disk : Option (List (String × JobProgress)))
    (st : IndexState) (fresh job2 : JobProgress)
    (hst : st = build_index path interval file mtime now0)
    (hfr : fresh = mkFreshJob jid file.length mtime nowE)
    (hj2 : job2 = { fresh with position := k, last_checkpoint_at := nowC })
    (hnoprior : disk = none ∨ ∃ jobs, disk = some jobs ∧ lookupJob jobs jid = none)
    (hk : k ≤ st.meta.total_lines) :
    enter jid disk file.length mtime st.meta.total_lines nowE =
      .ok ({ position := 0, job := fresh, exhausted := false },
        some (update_job_progress disk fresh)) ∧
    (consume st file { position := 0, job := fresh, exhausted := false } k).position = k ∧
    checkpoint (consume st file { position := 0, job := fresh, exhausted := false } k)
        (some (update_job_progress disk fresh)) nowC =
      ({ position := k, job := job2, exhausted := false },
        some (update_job_progress (some (update_job_progress disk fresh)) job2)) ∧
    enter jid (some (update_job_progress (some (update_job_progress disk fresh)) job2))
        file.length mtime st.meta.total_lines nowR =
      .ok ({ position := k, job := job2, exhausted := false },
        some (update_job_progress (some (update_job_progress disk fresh)) job2)) ∧
    (k < st.meta.total_lines →
      (sessionItems decode st file { position := k, job := job2, exhausted := false }).head?
        = some (k, decode (rstripNl ((splitLines file).getD k [])))) := by
  subst hst hfr hj2
  have htot : (build_index path interval file mtime now0).meta.total_lines
      = (build_index path interval file mtime now0).lines.length := rfl
  have hstatus : (mkFreshJob jid file.length mtime nowE).status ≠ JobStatus.completed :=
    fun h => JobStatus.noConfusion h
  have hlen := sessionItems_length_build id path interval file mtime now0
    { position := 0, job := mkFreshJob jid file.length mtime nowE, exhausted := false }
    hstatus
  have hmin : min k (sessionItems id (build_index path interval file mtime now0) file
      { position := 0, job := mkFreshJob jid file.length mtime nowE, exhausted := false }).length = k := by
    rw [hlen]
    rw [htot] at hk
    simp only []
    omega
  have hcons : consume (build_index path interval file mtime now0) file
      { position := 0, job := mkFreshJob jid file.length mtime nowE, exhausted := false } k
      = { position := k, job := mkFreshJob jid file.length mtime nowE, exhausted := false } := by
    simp [consume, hmin]
  have hE1 : enter jid disk file.length mtime
      (build_index path interval file mtime now0).meta.total_lines nowE
      = .ok ({ position := 0, job := mkFreshJob jid file.length mtime nowE, exhausted := false },
        some (update_job_progress disk (mkFreshJob jid file.length mtime nowE))) := by
    rcases hnoprior with hd | ⟨jobs, hd, hlook⟩
    · subst hd; rfl
    · subst hd; simp [enter, hlook]
  have hpos2 : ¬(({ mkFreshJob jid file.length mtime nowE with position := k, last_checkpoint_at := nowC } : JobProgress).position
      > (build_index path interval file mtime now0).meta.total_lines) := by
    show ¬k > (build_index path interval file mtime now0).meta.total_lines
    omega
  refine ⟨hE1, by rw [hcons], by rw [hcons]; rfl, ?_, ?_⟩
  · exact enter_found jid
      (update_job_progress (some (update_job_progress disk (mkFreshJob jid file.length mtime nowE)))
        { mkFreshJob jid file.length mtime nowE with position := k, last_checkpoint_at := nowC })
      { mkFreshJob jid file.length mtime nowE with position := k, last_checkpoint_at := nowC }
      file.length mtime (build_index path interval file mtime now0).meta.total_lines nowR
      (lookupJob_insertJob _ _) rfl rfl hpos2
  · intro hklt
    have hstatus2 : ({ mkFreshJob jid file.length mtime nowE with position := k, last_checkpoint_at := nowC } : JobProgress).status ≠ JobStatus.completed :=
      fun h => JobStatus.noConfusion h
    exact sessionItems_head_build decode path interval file mtime now0
      { position := k, job := { mkFreshJob jid file.length mtime nowE with
          position := k, last_checkpoint_at := nowC }, exhausted := false }
      hstatus2 (by rw [← htot]; exact hklt)

/-- C2 witness: the concrete 100-line scenario: fresh entry at 0, six items
consumed, checkpoint at 6, resumed session at position 6 whose first item is
line 6. -/
theorem c2_resume_witness :
    enter "job" none ((List.replicate 100 [65, 10]).flatten).length 0
        (build_index "f" 100 ((List.replicate 100 [65, 10]).flatten) 0 0).meta.total_lines 1
      = .ok ({ position := 0, job := mkFreshJob "job" ((List.replicate 100 [65, 10]).flatten).length 0 1, exhausted := false },
        some (update_job_progress none
          (mkFreshJob "job" ((List.replicate 100 [65, 10]).flatten).length 0 1))) ∧
    (consume (build_index "f" 100 ((List.replicate 100 [65, 10]).flatten) 0 0)
      ((List.replicate 100 [65, 10]).flatten)
      { position := 0, job := mkFreshJob "job" ((List.replicate 100 [65, 10]).flatten).length 0 1, exhausted := false }
      6).position = 6 ∧
    (sessionItems id (build_index "f" 100 ((List.replicate 100 [65, 10]).flatten) 0 0)
      ((List.replicate 100 [65, 10]).flatten)
      { position := 6, job := { mkFreshJob "job" ((List.replicate 100 [65, 10]).flatten).length 0 1 with position := 6, last_checkpoint_at := 2 }, exhausted := false }).head?
      = some (6, id (rstripNl ((splitLines ((List.replicate 100 [65, 10]).flatten)).getD 6 []))) := by
  have h := c2_resume id "f" "job" 100 ((List.replicate 100 [65, 10]).flatten) 0 0 1 2 3 6
    none (build_index "f" 100 ((List.replicate 100 [65, 10]).flatten) 0 0)
    (mkFreshJob "job" ((List.replicate 100 [65, 10]).flatten).length 0 1)
    { mkFreshJob "job" ((List.replicate 100 [65, 10]).flatten).length 0 1 with position := 6, last_checkpoint_at := 2 }
    rfl rfl rfl (Or.inl rfl) (by decide)
  exact ⟨h.1, h.2.1, h.2.2.2.2 (by decide)⟩

/-- C8, counterexample: a progress file whose content is valid JSON of the
wrong shape, a top-level array, makes the loader raise an uncaught
AttributeError instead of returning none. -/
theorem c8_counterexample :
    load_progress (some (JVal.jarr [])) = .error PyExc.attributeError ∧
    load_progress (some (JVal.jarr [])) ≠ .ok none ∧
    exceptIsOk (load_progress (some (JVal.jarr []))) = false := by
  refine ⟨rfl, ?_, rfl⟩
  intro h
  rw [show load_progress (some (JVal.jarr [])) = .error PyExc.attributeError from rfl] at h
  exact Except.noConfusion h

/-- C8, amended: the loader returns a value, never an exception, for a
missing or unparsable file and for any parsed content whose top level is an
object whose jobs member, when present, is itself an object: version
mismatches, missing job fields and wrongly typed job records all degrade to
none through the caught exception classes; only a non-object top level or a
non-object jobs member escalates an uncaught AttributeError. -/
theorem c8_load_soft_fails (content : Option JVal) (hshape : ShapeOk content) :
    exceptIsOk (load_progress content) = true := by
  rcases content with _ | v
  · rfl
  · cases v with
    | jobj fs =>
      cases hv : jvalIsStr ((lookupField fs "format_version").getD JVal.jnull) "1.0" with
      | false =>
        simp [load_progress, load_progress_body, pyGet, hv, exceptIsOk,
          bind, Except.bind, pure, Except.pure]
      | true =>
        cases hj : lookupField fs "jobs" with
        | none =>
          simp [load_progress, load_progress_body, pyGet, hv, hj, pyItems, loadJobs,
            exceptIsOk, bind, Except.bind, pure, Except.pure]
        | some jv =>
          have hjv : ∃ js, jv = JVal.jobj js := by
            simp only [ShapeOk, hj] at hshape
            cases jv with
            | jobj js => exact ⟨js, rfl⟩
            | jnull => exact hshape.elim
            | jbool b => exact hshape.elim
            | jnum n => exact hshape.elim
            | jstr s => exact hshape.elim
            | jarr xs => exact hshape.elim
          obtain ⟨js, rfl⟩ := hjv
          cases hl : loadJobs js with
          | ok r =>
            simp [load_progress, load_progress_body, pyGet, hv, hj, pyItems, hl,
              exceptIsOk, bind, Except.bind, pure, Except.pure]
          | error e =>
            rcases loadJobs_error js e hl with he | he <;> subst he <;>
              simp [load_progress, load_progress_body, pyGet, hv, hj, pyItems, hl,
                exceptIsOk, bind, Except.bind, pure, Except.pure]
    | jnull => exact hshape.elim
    | jbool b => exact hshape.elim
    | jnum n => exact hshape.elim
    | jstr s => exact hshape.elim
    | jarr xs => exact hshape.elim

/-- C8 witness: a job record with a missing field and one with a wrongly
typed record both load to none rather than raising. -/
theorem c8_load_soft_fails_witness :
    ShapeOk (some (JVal.jobj [("format_version", JVal.jstr "1.0"),
      ("jobs", JVal.jobj [("j", JVal.jobj [("position", JVal.jnum 0)])])])) ∧
    exceptIsOk (load_progress (some (JVal.jobj [("format_version", JVal.jstr "1.0"),
      ("jobs", JVal.jobj [("j", JVal.jobj [("position", JVal.jnum 0)])])]))) = true ∧
    exceptIsOk (load_progress (some (JVal.jobj [("format_version", JVal.jstr "1.0"),
      ("jobs", JVal.jobj [("j", JVal.jarr [])])]))) = true := by
  refine ⟨trivial, ?_, ?_⟩
  · exact c8_load_soft_fails (some (JVal.jobj [("format_version", JVal.jstr "1.0"),
      ("jobs", JVal.jobj [("j", JVal.jobj [("position", JVal.jnum 0)])])])) trivial
  · exact c8_load_soft_fails (some (JVal.jobj [("format_version", JVal.jstr "1.0"),
      ("jobs", JVal.jobj [("j", JVal.jarr [])])])) trivial

end JsonlResumable
